import Mathlib

/-!
Shallow embedding of the Goodreads recommendation pipeline
(`downsampling.py` and `modeling.py`).

Interaction tables are lists of rows; Spark dataframe operations are
translated to list operations:
  * inner join on a distinct key column = `List.filter` by membership,
  * `groupBy(user).count()` = per-user row count,
  * `union` (Spark `unionAll`) = list append,
  * `subtract` (Spark EXCEPT DISTINCT) = filter-out then dedup,
  * seeded random sampling (`sample`, `sampleBy`, `randomSplit`) is
    deterministic given its seed; the engine's PRNG is external, so it is
    modelled by explicit decision functions (concrete seeded models are
    given for running the pipeline, and theorems quantify over arbitrary
    decision functions where the choice does not matter).
External numerical components (ALS fitting, `RankingMetrics`,
`RegressionEvaluator`, `np.argmin` / `np.argmax`) are modelled from their
documented behaviour, with the opaque numeric parts as function parameters.
-/

namespace Goodreads

/-- An interaction record, the fixed five-column schema of `create_schema`
(user_id, book_id, is_read, rating, is_reviewed — all integers). -/
structure Row where
  user_id : Int
  book_id : Int
  is_read : Int
  rating : Int
  is_reviewed : Int
deriving DecidableEq, Repr

/-- An interaction table: a Spark dataframe of `Row`s. -/
abbrev Table := List Row

/-- The distinct user ids of a table: `data.select(user).distinct()`. -/
def distinctUsers (data : Table) : List Int :=
  (data.map Row.user_id).dedup

/-- Per-user interaction count: the `count` column of
`data.groupBy(user).count()` at user `u`. -/
def countUser (data : Table) (u : Int) : Nat :=
  (data.filter (fun r => decide (r.user_id = u))).length

/-- `get_frequent_user` (downsampling.py): group by user, count, keep the
users whose interaction count is at least the threshold, project to the
user column. -/
def get_frequent_user (data : Table) (threshold : Int) : List Int :=
  (distinctUsers data).filter (fun u => decide (threshold ≤ (countUser data u : Int)))

/-- Modelled from the spec: the external engine's seeded Bernoulli user
sampler behind `user_df.sample(False, percentage, seed)` — a deterministic
pseudo-random keep/drop decision per user id, parameterised by the seed and
the retention probability.  (The actual PRNG lives in the distributed
engine, which the spec puts out of scope; any deterministic function of
(seed, percentage, user) is a faithful model.) -/
def bernoulliDecide (seed : Nat) (percentage : ℚ) (u : Int) : Bool :=
  decide (((u.natAbs * 2654435761 + seed * 40503) % 10000 : ℤ)
    < Int.fdiv (percentage.num * 10000) (percentage.den : Int))

/-- The sampled user set `user_id_1_perc` of `downsampling`:
`user_df.sample(False, float(percentage), seed=123)`. -/
def user_id_1_perc (user_df : List Int) (percentage : ℚ) : List Int :=
  user_df.filter (bernoulliDecide 123 percentage)

/-- `downsampling` (downsampling.py): sample the user dataframe with
seed 123, then inner-join the data on the sampled users (keeping the
original columns). -/
def downsampling (data : Table) (user_df : List Int) (percentage : ℚ) : Table :=
  data.filter (fun r => decide (r.user_id ∈ user_id_1_perc user_df percentage))

/-- `create_subset` (downsampling.py): frequency-filter the users, then
downsample the data to the sampled frequent users. -/
def create_subset (data : Table) (threshold : Int) (percentage : ℚ) : Table :=
  downsampling data (get_frequent_user data threshold) percentage

/-! ### The per-user train / validation / test split (modeling.py) -/

/-- Spark's `subtract` (EXCEPT DISTINCT): the distinct rows of `xs` that do
not occur in `ys`. -/
def exceptDistinct (xs ys : Table) : Table :=
  (xs.filter (fun r => decide (r ∉ ys))).dedup

/-- `customized_split_func` (modeling.py): restrict `data` to the rows of
the validation-group users (`val_data_temp`), hold out a stratified
per-user half of them (`sampleBy` with fraction 0.5, modelled by the
decision function `samp`) as the evaluation rows, and fold the remaining
half (`val_data_temp.subtract(val_data)`) back into the training set.
Returns `(train_val_data, val_data)`. -/
def customized_split_func (samp : Row → Bool) (data train : Table)
    (val_user : List Int) : Table × Table :=
  let val_data_temp := data.filter (fun r => decide (r.user_id ∈ val_user))
  let val_data := val_data_temp.filter samp
  let train_val_data := train ++ exceptDistinct val_data_temp val_data
  (train_val_data, val_data)

/-- `train_val_test_split` (modeling.py): split the distinct users into
three groups (`randomSplit([0.6, 0.2, 0.2], seed=123)`, modelled by the
assignment function `assign`), give the train-group users' rows to the
training set, then apply `customized_split_func` to the validation group
(row sampler `sampV`) and to the test group (row sampler `sampT`).
Returns `(train_data, val_data, test_data)`. -/
def train_val_test_split (assign : Int → Fin 3) (sampV sampT : Row → Bool)
    (data : Table) : Table × Table × Table :=
  let users := distinctUsers data
  let g0 := users.filter (fun u => decide (assign u = 0))
  let g1 := users.filter (fun u => decide (assign u = 1))
  let g2 := users.filter (fun u => decide (assign u = 2))
  let train0 := data.filter (fun r => decide (r.user_id ∈ g0))
  let p1 := customized_split_func sampV data train0 g1
  let p2 := customized_split_func sampT data p1.1 g2
  (p2.1, p1.2, p2.2)

/-- Modelled from the spec: the engine's seeded per-row decision behind
`sampleBy(user, {u ↦ 0.5 for each u}, seed)` — a deterministic
pseudo-random keep/drop decision per row, parameterised by the seed. -/
def sampleByDecide (seed : Nat) (r : Row) : Bool :=
  decide ((r.user_id.natAbs * 131 + r.book_id.natAbs * 137 + r.rating.natAbs * 139
    + r.is_read.natAbs * 149 + r.is_reviewed.natAbs * 151 + seed * 157) % 2 = 0)

/-- Modelled from the spec: the engine's seeded uniform assignment behind
`randomSplit([0.6, 0.2, 0.2], seed)` — a deterministic pseudo-random
60/20/20 group choice per user id, parameterised by the seed. -/
def randomSplitAssign (seed : Nat) (u : Int) : Fin 3 :=
  let h := (u.natAbs * 9301 + seed * 49297) % 100
  if h < 60 then 0 else if h < 80 then 1 else 2

/-- The split exactly as the pipeline runs it: both `sampleBy` calls and
the `randomSplit` use the hard-coded seed 123. -/
def train_val_test_split_run (data : Table) : Table × Table × Table :=
  train_val_test_split (randomSplitAssign 123) (sampleByDecide 123) (sampleByDecide 123) data

/-! ### Grid-search tuning (modeling.py) -/

/-- The regression metric names (`rmse`, `mae`, `r2`). -/
def regressionMetrics : List String := ["rmse", "mae", "r2"]

/-- The ranking metric names (`precisionAt`, `meanAveragePrecision`,
`ndcgAt`). -/
def rankingMetrics : List String := ["precisionAt", "meanAveragePrecision", "ndcgAt"]

/-- Python's `round(q, 4)`: round to four decimal places, here as
round-half-up on exact rationals, `⌊q * 10000 + 1/2⌋ / 10000` expressed
over the numerator and denominator (Python's float `round` differs only at
representation-dependent ties). -/
def round4 (q : ℚ) : ℚ :=
  mkRat (Int.fdiv (2 * (q.num * 10000) + (q.den : Int)) (2 * (q.den : Int))) 10000

/-- `list(product(rank_list, regParam_list))`: the Cartesian product in
rank-major order. -/
def paramCombination (ranks : List Int) (regs : List ℚ) : List (Int × ℚ) :=
  ranks.flatMap (fun r => regs.map (fun g => (r, g)))

/-- Modelled from numpy's documented behaviour: `np.argmin` returns the
index of the first occurrence of the minimum value. -/
def argminQ (l : List ℚ) : Nat :=
  l.findIdx (fun x => decide (∀ y ∈ l, x ≤ y))

/-- Modelled from numpy's documented behaviour: `np.argmax` returns the
index of the first occurrence of the maximum value. -/
def argmaxQ (l : List ℚ) : Nat :=
  l.findIdx (fun x => decide (∀ y ∈ l, y ≤ x))

/-- The `best_index` of `tuning_als`: `np.argmin` of the recorded scores
for a regression metric, `np.argmax` for a ranking metric. -/
def bestIdx (m : String) (scores : List ℚ) : Nat :=
  if m ∈ regressionMetrics then argminQ scores else argmaxQ scores

/-- The `tuning_table` dictionary: the `rank`, `regParam` and metric-score
columns, in evaluation order. -/
structure TuningTable where
  ranks : List Int
  regParams : List ℚ
  scores : List ℚ
deriving DecidableEq, Repr

/-- The `best_param_dict`: the selected rank, regularization parameter and
score. -/
structure BestParam where
  rank : Int
  regParam : ℚ
  score : ℚ
deriving DecidableEq, Repr

/-- The possible outcomes of a `tuning_als` call:
  * `missingArgs` — a required argument was `None`; the function printed an
    error message and returned `None` before the tuning loop (no model
    fitted, no score computed);
  * `crash fits` — the call raised a Python exception after fitting `fits`
    models (`NameError` on an unrecognized metric name, or `ValueError`
    from `np.argmin`/`np.argmax` on an empty grid);
  * `ok best table` — normal return of `(best_param_dict, tuning_table)`. -/
inductive TuningOutcome where
  | missingArgs : TuningOutcome
  | crash (fits : Nat) : TuningOutcome
  | ok (best : BestParam) (table : TuningTable) : TuningOutcome
deriving DecidableEq, Repr

/-- `tuning_als` (modeling.py).  The external ALS fit plus metric
evaluation is modelled by `ev : rank → regParam → score` (the training and
validation data are fixed across the call).  Mirrors the source: the
missing-argument guards, the loop over `product(rank_list, regParam_list)`
appending `rank`, `regParam` and `round(score, 4)` to the tuning table,
and the final `np.argmin` (regression metrics) / `np.argmax` (ranking
metrics) selection of `best_param_dict`. -/
def tuning_als (ev : Int → ℚ → ℚ) (train_data val_data : Option Table)
    (rank_list : Option (List Int)) (regParam_list : Option (List ℚ))
    (metrics : Option String) : TuningOutcome :=
  match rank_list, regParam_list with
  | none, _ => .missingArgs
  | _, none => .missingArgs
  | some ranks, some regs =>
    match train_data, val_data with
    | none, _ => .missingArgs
    | _, none => .missingArgs
    | some _, some _ =>
      match metrics with
      | none => .missingArgs
      | some m =>
        let combos := paramCombination ranks regs
        if m ∈ regressionMetrics ∨ m ∈ rankingMetrics then
          let scores := combos.map (fun p => round4 (ev p.1 p.2))
          match combos with
          | [] => .crash 0
          | _ :: _ =>
            let bi := bestIdx m scores
            .ok ⟨(combos.map Prod.fst).getD bi 0, (combos.map Prod.snd).getD bi 0,
                 scores.getD bi 0⟩
               ⟨combos.map Prod.fst, combos.map Prod.snd, scores⟩
        else
          match combos with
          | [] => .crash 0
          | _ :: _ => .crash 1

/-! ### Top-k metric evaluators (modeling.py) -/

/-- A row of a prediction dataframe (`model.transform(val_data)`): the
interaction columns relevant to evaluation plus the `prediction` column. -/
structure PredRow where
  user_id : Int
  book_id : Int
  rating : Int
  prediction : ℚ
deriving DecidableEq, Repr

/-- A prediction table. -/
abbrev PredTable := List PredRow

/-- The rows of `ds` in user `u`'s window partition
(`Window.partitionBy(user)`). -/
def userPartition (ds : PredTable) (u : Int) : PredTable :=
  ds.filter (fun r => decide (r.user_id = u))

/-- SQL `rank()` over a window ordered by `score` descending: one plus the
number of rows of the partition with a strictly greater score (ties share a
rank). -/
def sqlRank (score : PredRow → ℚ) (part : List PredRow) (r : PredRow) : Nat :=
  1 + (part.filter (fun s => decide (score r < score s))).length

/-- The shared per-user top-k window of both evaluators: rank each row
within its user's partition by `score` descending and keep exactly the rows
with `rank <= k`. -/
def topKWindow (score : PredRow → ℚ) (k : Nat) (ds : PredTable) : PredTable :=
  ds.filter (fun r => decide (sqlRank score (userPartition ds r.user_id) r ≤ k))

/-- The ordering column of `perUserActualItemsDF`:
`orderBy(col(rating).desc())`. -/
def ratingScore (r : PredRow) : ℚ := (r.rating : ℚ)

/-- `collect_list(item)` for user `u` over `rows`. -/
def collectItems (rows : PredTable) (u : Int) : List Int :=
  (rows.filter (fun r => decide (r.user_id = u))).map PredRow.book_id

/-- The `(predicted top-k items, actual top-k items)` pairs fed to
`RankingMetrics` by `top_k_rankingmetrics`: the inner join on the user
column of the grouped predicted-top-k table and the grouped actual-top-k
table. -/
def rankingPairs (ds : PredTable) (k : Nat) : List (List Int × List Int) :=
  let predTop := topKWindow PredRow.prediction k ds
  let actTop := topKWindow ratingScore k ds
  let predUsers := (predTop.map PredRow.user_id).dedup
  let actUsers := (actTop.map PredRow.user_id).dedup
  (predUsers.filter (fun u => decide (u ∈ actUsers))).map
    (fun u => (collectItems predTop u, collectItems actTop u))

/-- `top_k_rankingmetrics` (modeling.py).  The external `RankingMetrics`
computation is modelled by `rmEv : metric name → k → joined pairs → score`.
A `None` dataset prints an error and returns `None`; an unrecognized
metric name falls through every branch and returns `None`. -/
def top_k_rankingmetrics (rmEv : String → Nat → List (List Int × List Int) → ℚ)
    (dataset : Option PredTable) (k : Nat) (ranking_metrics : String) : Option ℚ :=
  match dataset with
  | none => none
  | some ds =>
    if ranking_metrics = "precisionAt" then some (rmEv "precisionAt" k (rankingPairs ds k))
    else if ranking_metrics = "meanAveragePrecision" then
      some (rmEv "meanAveragePrecision" k (rankingPairs ds k))
    else if ranking_metrics = "ndcgAt" then some (rmEv "ndcgAt" k (rankingPairs ds k))
    else none

/-- `top_k_regressionmetrics` (modeling.py).  The external
`RegressionEvaluator` is modelled by `regEv : metric name → rows → score`.
A `None` dataset prints an error and returns `None`; otherwise the
evaluator is applied to exactly the per-user top-k predicted rows. -/
def top_k_regressionmetrics (regEv : String → PredTable → ℚ)
    (dataset : Option PredTable) (k : Nat) (regression_metrics : String) : Option ℚ :=
  match dataset with
  | none => none
  | some ds => some (regEv regression_metrics (topKWindow PredRow.prediction k ds))

/-! ### Basic membership lemmas -/

lemma mem_distinctUsers {data : Table} {u : Int} :
    u ∈ distinctUsers data ↔ ∃ r ∈ data, r.user_id = u := by
  simp [distinctUsers, List.mem_dedup]

lemma user_id_mem_distinctUsers {data : Table} {r : Row} (h : r ∈ data) :
    r.user_id ∈ distinctUsers data :=
  mem_distinctUsers.mpr ⟨r, h, rfl⟩

lemma mem_get_frequent_user {data : Table} {threshold : Int} {u : Int} :
    u ∈ get_frequent_user data threshold ↔
      u ∈ distinctUsers data ∧ threshold ≤ (countUser data u : Int) := by
  simp [get_frequent_user, List.mem_filter]

lemma mem_user_id_1_perc {user_df : List Int} {percentage : ℚ} {u : Int} :
    u ∈ user_id_1_perc user_df percentage ↔
      u ∈ user_df ∧ bernoulliDecide 123 percentage u = true := by
  simp [user_id_1_perc, List.mem_filter]

lemma mem_downsampling {data : Table} {user_df : List Int} {percentage : ℚ} {r : Row} :
    r ∈ downsampling data user_df percentage ↔
      r ∈ data ∧ r.user_id ∈ user_id_1_perc user_df percentage := by
  simp [downsampling, List.mem_filter]

/-! ### Claim theorems: the downsampling stage -/

/-- C2: for every interaction table, user column and integer threshold, the
user set returned by `get_frequent_user` is a subset of the table's
distinct user set, and it contains exactly those users whose total
interaction count is at least the threshold — equivalently, among the
table's users it excludes exactly those whose count is below the
threshold. -/
theorem frequent_user_threshold_spec (data : Table) (threshold : Int) (u : Int) :
    (∀ v ∈ get_frequent_user data threshold, v ∈ distinctUsers data)
    ∧ (u ∈ get_frequent_user data threshold ↔
        u ∈ distinctUsers data ∧ threshold ≤ (countUser data u : Int))
    ∧ (u ∈ distinctUsers data →
        (u ∉ get_frequent_user data threshold ↔ (countUser data u : Int) < threshold)) := by
  refine ⟨fun v hv => (mem_get_frequent_user.mp hv).1, mem_get_frequent_user, fun hu => ?_⟩
  rw [mem_get_frequent_user]
  constructor
  · intro h
    by_contra hlt
    exact h ⟨hu, by omega⟩
  · intro h hmem
    omega

/-- Witness for C2 at a concrete table: the user with two interactions
passes threshold 2, the user with one interaction is excluded. -/
theorem frequent_user_threshold_spec_witness :
    (7 : Int) ∈ get_frequent_user
      [⟨7, 1, 1, 5, 0⟩, ⟨7, 2, 1, 4, 0⟩, ⟨9, 3, 0, 2, 1⟩] 2
    ∧ (9 : Int) ∉ get_frequent_user
      [⟨7, 1, 1, 5, 0⟩, ⟨7, 2, 1, 4, 0⟩, ⟨9, 3, 0, 2, 1⟩] 2 := by
  constructor
  · exact (frequent_user_threshold_spec
      [⟨7, 1, 1, 5, 0⟩, ⟨7, 2, 1, 4, 0⟩, ⟨9, 3, 0, 2, 1⟩] 2 7).2.1.mpr (by decide)
  · intro hmem
    have h := (frequent_user_threshold_spec
      [⟨7, 1, 1, 5, 0⟩, ⟨7, 2, 1, 4, 0⟩, ⟨9, 3, 0, 2, 1⟩] 2 9).2.1.mp hmem
    revert h
    decide

/-- C8: the frequency filter and the downsampler never modify interaction
rows: the downsampling output is a sublist of the input (so every output
row is an input row with all five attributes unchanged), membership in the
output is exactly "the row's user was retained", and the composed
`create_subset` likewise only selects rows of frequent sampled users. -/
theorem downsampling_frame (data : Table) (user_df : List Int) (threshold : Int)
    (percentage : ℚ) (r : Row) :
    (downsampling data user_df percentage).Sublist data
    ∧ (r ∈ downsampling data user_df percentage ↔
        r ∈ data ∧ r.user_id ∈ user_id_1_perc user_df percentage)
    ∧ (create_subset data threshold percentage).Sublist data
    ∧ (r ∈ create_subset data threshold percentage →
        r ∈ data ∧ r.user_id ∈ get_frequent_user data threshold) := by
  refine ⟨List.filter_sublist data, mem_downsampling, List.filter_sublist data, fun h => ?_⟩
  have h' := mem_downsampling.mp h
  exact ⟨h'.1, (mem_user_id_1_perc.mp h'.2).1⟩

/-- Witness for C8 at a concrete table: the surviving row is an unchanged
row of the input. -/
theorem downsampling_frame_witness :
    (downsampling [⟨7, 1, 1, 5, 0⟩] [7] 1).Sublist [⟨7, 1, 1, 5, 0⟩] :=
  (downsampling_frame [⟨7, 1, 1, 5, 0⟩] [7] 0 1 ⟨7, 1, 1, 5, 0⟩).1

/-! ### Membership lemmas for the three-way split -/

lemma mem_exceptDistinct {xs ys : Table} {r : Row} :
    r ∈ exceptDistinct xs ys ↔ r ∈ xs ∧ r ∉ ys := by
  simp [exceptDistinct, List.mem_dedup, List.mem_filter]

lemma mem_customized_val {samp : Row → Bool} {data train : Table}
    {val_user : List Int} {r : Row} :
    r ∈ (customized_split_func samp data train val_user).2 ↔
      r ∈ data ∧ r.user_id ∈ val_user ∧ samp r = true := by
  simp only [customized_split_func, List.mem_filter, decide_eq_true_eq]
  tauto

lemma mem_customized_train {samp : Row → Bool} {data train : Table}
    {val_user : List Int} {r : Row} :
    r ∈ (customized_split_func samp data train val_user).1 ↔
      r ∈ train ∨ (r ∈ data ∧ r.user_id ∈ val_user ∧ samp r = false) := by
  cases hs : samp r <;>
    simp [customized_split_func, mem_exceptDistinct, List.mem_filter, hs]

lemma mem_split_val {assign : Int → Fin 3} {sampV sampT : Row → Bool}
    {data : Table} {r : Row} :
    r ∈ (train_val_test_split assign sampV sampT data).2.1 ↔
      r ∈ data ∧ assign r.user_id = 1 ∧ sampV r = true := by
  have hu : r ∈ data → r.user_id ∈ distinctUsers data := user_id_mem_distinctUsers
  simp only [train_val_test_split, mem_customized_val, List.mem_filter, decide_eq_true_eq]
  tauto

lemma mem_split_test {assign : Int → Fin 3} {sampV sampT : Row → Bool}
    {data : Table} {r : Row} :
    r ∈ (train_val_test_split assign sampV sampT data).2.2 ↔
      r ∈ data ∧ assign r.user_id = 2 ∧ sampT r = true := by
  have hu : r ∈ data → r.user_id ∈ distinctUsers data := user_id_mem_distinctUsers
  simp only [train_val_test_split, mem_customized_val, List.mem_filter, decide_eq_true_eq]
  tauto

lemma mem_split_train {assign : Int → Fin 3} {sampV sampT : Row → Bool}
    {data : Table} {r : Row} :
    r ∈ (train_val_test_split assign sampV sampT data).1 ↔
      r ∈ data ∧ (assign r.user_id = 0
        ∨ (assign r.user_id = 1 ∧ sampV r = false)
        ∨ (assign r.user_id = 2 ∧ sampT r = false)) := by
  have hu : r ∈ data → r.user_id ∈ distinctUsers data := user_id_mem_distinctUsers
  simp only [train_val_test_split, mem_customized_train, mem_customized_val,
    List.mem_filter, decide_eq_true_eq]
  tauto

lemma fin3_eq_cases (a : Fin 3) : a = 0 ∨ a = 1 ∨ a = 2 := by
  revert a
  decide

/-! ### Claim theorem: the three-way split is a per-user partition -/

/-- C1: for every interaction table and every row (hence every user), after
`train_val_test_split` the union of the train, validation and test sets
contains exactly the original rows (no row of any user dropped, none
duplicated across splits), the validation and test sets are disjoint (as
are train/validation and train/test), and the final train set contains
exactly the train-group users' rows, the validation-group users'
non-held-out halves and the test-group users' non-held-out halves.  The
group assignment and the two per-user stratified row samplers are
arbitrary. -/
theorem split_partition_spec (assign : Int → Fin 3) (sampV sampT : Row → Bool)
    (data : Table) (r : Row) :
    ((r ∈ (train_val_test_split assign sampV sampT data).1
        ∨ r ∈ (train_val_test_split assign sampV sampT data).2.1
        ∨ r ∈ (train_val_test_split assign sampV sampT data).2.2) ↔ r ∈ data)
    ∧ ¬(r ∈ (train_val_test_split assign sampV sampT data).2.1
        ∧ r ∈ (train_val_test_split assign sampV sampT data).2.2)
    ∧ ¬(r ∈ (train_val_test_split assign sampV sampT data).1
        ∧ r ∈ (train_val_test_split assign sampV sampT data).2.1)
    ∧ ¬(r ∈ (train_val_test_split assign sampV sampT data).1
        ∧ r ∈ (train_val_test_split assign sampV sampT data).2.2)
    ∧ (r ∈ (train_val_test_split assign sampV sampT data).1 ↔
        r ∈ data ∧ (assign r.user_id = 0
          ∨ (assign r.user_id = 1 ∧ sampV r = false)
          ∨ (assign r.user_id = 2 ∧ sampT r = false))) := by
  have hfin := fin3_eq_cases (assign r.user_id)
  have d01 : (0 : Fin 3) ≠ 1 := by decide
  have d02 : (0 : Fin 3) ≠ 2 := by decide
  have d12 : (1 : Fin 3) ≠ 2 := by decide
  simp only [mem_split_train, mem_split_val, mem_split_test]
  rcases hfin with h | h | h <;>
    cases hV : sampV r <;> cases hT : sampT r <;>
      simp [h, d01, d02, d12, d01.symm, d02.symm, d12.symm]

/-- Witness for C1 at a concrete split: with two users assigned to the
validation and test groups and a sampler holding out rows with odd book
ids, each row lands in exactly one of the three sets. -/
theorem split_partition_spec_witness :
    ((⟨5, 1, 1, 3, 0⟩ : Row) ∈
        (train_val_test_split (fun u => if u = 5 then 1 else 2)
          (fun r => decide (r.book_id % 2 = 1)) (fun r => decide (r.book_id % 2 = 1))
          [⟨5, 1, 1, 3, 0⟩, ⟨5, 2, 1, 4, 0⟩, ⟨6, 3, 0, 2, 1⟩]).1
      ∨ (⟨5, 1, 1, 3, 0⟩ : Row) ∈
        (train_val_test_split (fun u => if u = 5 then 1 else 2)
          (fun r => decide (r.book_id % 2 = 1)) (fun r => decide (r.book_id % 2 = 1))
          [⟨5, 1, 1, 3, 0⟩, ⟨5, 2, 1, 4, 0⟩, ⟨6, 3, 0, 2, 1⟩]).2.1
      ∨ (⟨5, 1, 1, 3, 0⟩ : Row) ∈
        (train_val_test_split (fun u => if u = 5 then 1 else 2)
          (fun r => decide (r.book_id % 2 = 1)) (fun r => decide (r.book_id % 2 = 1))
          [⟨5, 1, 1, 3, 0⟩, ⟨5, 2, 1, 4, 0⟩, ⟨6, 3, 0, 2, 1⟩]).2.2) :=
  (split_partition_spec (fun u => if u = 5 then 1 else 2)
    (fun r => decide (r.book_id % 2 = 1)) (fun r => decide (r.book_id % 2 = 1))
    [⟨5, 1, 1, 3, 0⟩, ⟨5, 2, 1, 4, 0⟩, ⟨6, 3, 0, 2, 1⟩] ⟨5, 1, 1, 3, 0⟩).1.mpr
    (by decide)

/-! ### First-occurrence extremum lemmas for `np.argmin` / `np.argmax` -/

lemma exists_list_min : ∀ (l : List ℚ), l ≠ [] → ∃ x ∈ l, ∀ y ∈ l, x ≤ y := by
  intro l
  induction l with
  | nil => intro h; exact absurd rfl h
  | cons a t ih =>
    intro _
    rcases eq_or_ne t [] with rfl | ht
    · exact ⟨a, by simp⟩
    · obtain ⟨x, hx, hmin⟩ := ih ht
      rcases le_total a x with hax | hxa
      · refine ⟨a, List.mem_cons_self a t, fun y hy => ?_⟩
        rcases List.mem_cons.mp hy with rfl | hy
        · exact le_refl y
        · exact hax.trans (hmin y hy)
      · refine ⟨x, List.mem_cons_of_mem a hx, fun y hy => ?_⟩
        rcases List.mem_cons.mp hy with rfl | hy
        · exact hxa
        · exact hmin y hy

lemma exists_list_max (l : List ℚ) (h : l ≠ []) : ∃ x ∈ l, ∀ y ∈ l, y ≤ x := by
  obtain ⟨x, hx, hmin⟩ := exists_list_min (l.map Neg.neg) (by simpa using h)
  obtain ⟨z, hz, rfl⟩ := List.mem_map.mp hx
  refine ⟨z, hz, fun y hy => ?_⟩
  have := hmin (-y) (List.mem_map_of_mem Neg.neg hy)
  linarith

lemma argminQ_spec (l : List ℚ) (h : l ≠ []) :
    argminQ l < l.length
    ∧ (∀ y ∈ l, l.getD (argminQ l) 0 ≤ y)
    ∧ (∀ j, j < argminQ l → l.getD (argminQ l) 0 < l.getD j 0) := by
  obtain ⟨x, hx, hmin⟩ := exists_list_min l h
  have hex : ∃ z ∈ l, (fun z => decide (∀ y ∈ l, z ≤ y)) z = true :=
    ⟨x, hx, by simpa using hmin⟩
  have hlt : argminQ l < l.length := List.findIdx_lt_length_of_exists hex
  have hsel : (fun z => decide (∀ y ∈ l, z ≤ y)) (l.get ⟨argminQ l, hlt⟩) = true :=
    List.findIdx_getElem (w := hlt)
  have hgetD : l.getD (argminQ l) 0 = l.get ⟨argminQ l, hlt⟩ := by
    simp [List.getD_eq_getElem?_getD, List.getElem?_eq_getElem hlt]
  have hmin' : ∀ y ∈ l, l.getD (argminQ l) 0 ≤ y := by
    rw [hgetD]
    simpa using hsel
  refine ⟨hlt, hmin', fun j hj => ?_⟩
  have hjl : j < l.length := hj.trans hlt
  have hnot : (fun z => decide (∀ y ∈ l, z ≤ y)) (l.get ⟨j, hjl⟩) = false :=
    List.not_of_lt_findIdx hj
  have hnot' : ∃ y ∈ l, y < l.get ⟨j, hjl⟩ := by
    simpa [not_forall] using hnot
  obtain ⟨y, hy, hylt⟩ := hnot'
  have hgetDj : l.getD j 0 = l.get ⟨j, hjl⟩ := by
    simp [List.getD_eq_getElem?_getD, List.getElem?_eq_getElem hjl]
  rw [hgetDj]
  exact lt_of_le_of_lt (hmin' y hy) hylt

lemma argmaxQ_spec (l : List ℚ) (h : l ≠ []) :
    argmaxQ l < l.length
    ∧ (∀ y ∈ l, y ≤ l.getD (argmaxQ l) 0)
    ∧ (∀ j, j < argmaxQ l → l.getD j 0 < l.getD (argmaxQ l) 0) := by
  obtain ⟨x, hx, hmax⟩ := exists_list_max l h
  have hex : ∃ z ∈ l, (fun z => decide (∀ y ∈ l, y ≤ z)) z = true :=
    ⟨x, hx, by simpa using hmax⟩
  have hlt : argmaxQ l < l.length := List.findIdx_lt_length_of_exists hex
  have hsel : (fun z => decide (∀ y ∈ l, y ≤ z)) (l.get ⟨argmaxQ l, hlt⟩) = true :=
    List.findIdx_getElem (w := hlt)
  have hgetD : l.getD (argmaxQ l) 0 = l.get ⟨argmaxQ l, hlt⟩ := by
    simp [List.getD_eq_getElem?_getD, List.getElem?_eq_getElem hlt]
  have hmax' : ∀ y ∈ l, y ≤ l.getD (argmaxQ l) 0 := by
    rw [hgetD]
    simpa using hsel
  refine ⟨hlt, hmax', fun j hj => ?_⟩
  have hjl : j < l.length := hj.trans hlt
  have hnot : (fun z => decide (∀ y ∈ l, y ≤ z)) (l.get ⟨j, hjl⟩) = false :=
    List.not_of_lt_findIdx hj
  have hnot' : ∃ y ∈ l, l.get ⟨j, hjl⟩ < y := by
    simpa [not_forall] using hnot
  obtain ⟨y, hy, hylt⟩ := hnot'
  have hgetDj : l.getD j 0 = l.get ⟨j, hjl⟩ := by
    simp [List.getD_eq_getElem?_getD, List.getElem?_eq_getElem hjl]
  rw [hgetDj]
  exact lt_of_lt_of_le hylt (hmax' y hy)

/-! ### Characterization of a normal `tuning_als` return -/

lemma tuning_als_ok_iff {ev : Int → ℚ → ℚ} {tr vl : Table} {ranks : List Int}
    {regs : List ℚ} {m : String} {best : BestParam} {tbl : TuningTable} :
    tuning_als ev (some tr) (some vl) (some ranks) (some regs) (some m) = .ok best tbl ↔
      (m ∈ regressionMetrics ∨ m ∈ rankingMetrics)
      ∧ paramCombination ranks regs ≠ []
      ∧ tbl = ⟨(paramCombination ranks regs).map Prod.fst,
               (paramCombination ranks regs).map Prod.snd,
               (paramCombination ranks regs).map (fun p => round4 (ev p.1 p.2))⟩
      ∧ best = ⟨tbl.ranks.getD (bestIdx m tbl.scores) 0,
                tbl.regParams.getD (bestIdx m tbl.scores) 0,
                tbl.scores.getD (bestIdx m tbl.scores) 0⟩ := by
  simp only [tuning_als]
  split
  case isTrue hm =>
    split
    case h_1 heq => simp [heq, hm]
    case h_2 a t heq =>
      rw [heq]
      constructor
      · intro h
        injection h with h1 h2
        subst h2
        subst h1
        simp [hm, heq]
      · rintro ⟨-, -, htbl, hbest⟩
        subst htbl
        subst hbest
        simp [heq]
  case isFalse hm =>
    have : ¬(m ∈ regressionMetrics ∨ m ∈ rankingMetrics) := hm
    split <;> simp [this]

lemma metrics_disjoint {m : String} (h : m ∈ rankingMetrics) : m ∉ regressionMetrics := by
  intro h2
  simp only [rankingMetrics, List.mem_cons, List.not_mem_nil, or_false] at h
  rcases h with rfl | rfl | rfl <;> revert h2 <;> decide

lemma length_paramCombination (ranks : List Int) (regs : List ℚ) :
    (paramCombination ranks regs).length = ranks.length * regs.length := by
  induction ranks with
  | nil => simp [paramCombination]
  | cons a t ih =>
    simp only [paramCombination, List.flatMap_cons, List.length_append,
      List.length_map, List.length_cons] at ih ⊢
    rw [ih]
    ring

lemma paramCombination_ne_nil {ranks : List Int} {regs : List ℚ}
    (h1 : ranks ≠ []) (h2 : regs ≠ []) : paramCombination ranks regs ≠ [] := by
  intro hc
  have hlen := length_paramCombination ranks regs
  rw [hc] at hlen
  simp only [List.length_nil] at hlen
  rcases Nat.mul_eq_zero.mp hlen.symm with h0 | h0
  · exact h1 (List.length_eq_zero.mp h0)
  · exact h2 (List.length_eq_zero.mp h0)

lemma getD_mem_of_lt {l : List ℚ} {i : Nat} (h : i < l.length) : l.getD i 0 ∈ l := by
  have : l.getD i 0 = l.get ⟨i, h⟩ := by
    simp [List.getD_eq_getElem?_getD, List.getElem?_eq_getElem h]
  rw [this]
  exact List.get_mem l i h

/-! ### Claim theorems: grid-search tuning -/

/-- C3: whenever `tuning_als` returns a best configuration and a non-empty
tuning table, the best configuration's score is the minimum of all
recorded scores for a regression metric (`rmse`, `mae`, `r2`) and the
maximum of all recorded scores for a ranking metric (`precisionAt`,
`meanAveragePrecision`, `ndcgAt`). -/
theorem tuning_best_extremal (ev : Int → ℚ → ℚ) (tr vl : Table) (ranks : List Int)
    (regs : List ℚ) (m : String) (best : BestParam) (tbl : TuningTable)
    (h : tuning_als ev (some tr) (some vl) (some ranks) (some regs) (some m)
          = .ok best tbl) :
    (m ∈ regressionMetrics → best.score ∈ tbl.scores ∧ ∀ s ∈ tbl.scores, best.score ≤ s)
    ∧ (m ∈ rankingMetrics → best.score ∈ tbl.scores ∧ ∀ s ∈ tbl.scores, s ≤ best.score) := by
  obtain ⟨hm, hne, htbl, hbest⟩ := tuning_als_ok_iff.mp h
  have hsne : tbl.scores ≠ [] := by
    rw [htbl]
    simpa using hne
  constructor
  · intro hreg
    have hbi : bestIdx m tbl.scores = argminQ tbl.scores := by simp [bestIdx, hreg]
    obtain ⟨hlt, hminle, -⟩ := argminQ_spec tbl.scores hsne
    have hscore : best.score = tbl.scores.getD (argminQ tbl.scores) 0 := by
      rw [hbest, ← hbi]
    rw [hscore]
    exact ⟨getD_mem_of_lt hlt, hminle⟩
  · intro hrank
    have hbi : bestIdx m tbl.scores = argmaxQ tbl.scores := by
      simp [bestIdx, metrics_disjoint hrank]
    obtain ⟨hlt, hmaxle, -⟩ := argmaxQ_spec tbl.scores hsne
    have hscore : best.score = tbl.scores.getD (argmaxQ tbl.scores) 0 := by
      rw [hbest, ← hbi]
    rw [hscore]
    exact ⟨getD_mem_of_lt hlt, hmaxle⟩

/-- Witness for C3, the spec's scenario: metric `rmse` with grid scores
`[1.2, 0.9]` selects the configuration with score `0.9`, the minimum. -/
theorem tuning_best_extremal_witness :
    ("rmse" ∈ regressionMetrics →
      mkRat 9 10 ∈ ([mkRat 6 5, mkRat 9 10] : List ℚ)
      ∧ ∀ s ∈ ([mkRat 6 5, mkRat 9 10] : List ℚ), mkRat 9 10 ≤ s)
    ∧ ("rmse" ∈ rankingMetrics →
      mkRat 9 10 ∈ ([mkRat 6 5, mkRat 9 10] : List ℚ)
      ∧ ∀ s ∈ ([mkRat 6 5, mkRat 9 10] : List ℚ), s ≤ mkRat 9 10) :=
  tuning_best_extremal (fun r _ => if r = 1 then mkRat 6 5 else mkRat 9 10) [] [] [1, 2] [1]
    "rmse" ⟨2, 1, mkRat 9 10⟩ ⟨[1, 2], [1, 1], [mkRat 6 5, mkRat 9 10]⟩ (by decide)

/-- C4: whenever `tuning_als` returns a tuning table, the table holds one
`(rank, regParam, score)` record per element of the Cartesian product
`product(rank_list, regParam_list)`, in evaluation order, so each column
has length `|rank_list| * |regParam_list|`. -/
theorem tuning_table_shape (ev : Int → ℚ → ℚ) (tr vl : Table) (ranks : List Int)
    (regs : List ℚ) (m : String)
    (h1 : ranks ≠ []) (h2 : regs ≠ [])
    (hm : m ∈ regressionMetrics ∨ m ∈ rankingMetrics) :
    ∃ best tbl,
      tuning_als ev (some tr) (some vl) (some ranks) (some regs) (some m) = .ok best tbl
      ∧ tbl.ranks = (paramCombination ranks regs).map Prod.fst
      ∧ tbl.regParams = (paramCombination ranks regs).map Prod.snd
      ∧ tbl.scores = (paramCombination ranks regs).map (fun p => round4 (ev p.1 p.2))
      ∧ tbl.ranks.length = ranks.length * regs.length
      ∧ tbl.regParams.length = ranks.length * regs.length
      ∧ tbl.scores.length = ranks.length * regs.length := by
  refine ⟨_, _, tuning_als_ok_iff.mpr ⟨hm, paramCombination_ne_nil h1 h2, rfl, rfl⟩,
    rfl, rfl, rfl, ?_, ?_, ?_⟩ <;> simp [length_paramCombination]

/-- Witness for C4: a 2-by-2 grid yields four records in rank-major
order. -/
theorem tuning_table_shape_witness :
    ∃ best tbl,
      tuning_als (fun _ _ => (1 : ℚ)) (some []) (some []) (some [1, 2])
          (some [mkRat 1 2, 2]) (some "mae") = .ok best tbl
      ∧ tbl.ranks = (paramCombination [1, 2] [mkRat 1 2, 2]).map Prod.fst
      ∧ tbl.regParams = (paramCombination [1, 2] [mkRat 1 2, 2]).map Prod.snd
      ∧ tbl.scores = (paramCombination [1, 2] [mkRat 1 2, 2]).map
          (fun p => round4 ((fun _ _ => (1 : ℚ)) p.1 p.2))
      ∧ tbl.ranks.length = ([1, 2] : List Int).length * ([mkRat 1 2, 2] : List ℚ).length
      ∧ tbl.regParams.length = ([1, 2] : List Int).length * ([mkRat 1 2, 2] : List ℚ).length
      ∧ tbl.scores.length = ([1, 2] : List Int).length * ([mkRat 1 2, 2] : List ℚ).length :=
  tuning_table_shape (fun _ _ => 1) [] [] [1, 2] [mkRat 1 2, 2] "mae"
    (by simp) (by simp) (Or.inl (by decide))

/-- C9: whenever `tuning_als` returns, every stored score is the metric
value rounded to 4 decimal places, the best configuration is selected over
these rounded values, and when several grid points attain the extremal
rounded score the one with the smallest index in Cartesian-product order
(rank-major, then regularization) is returned: at every strictly smaller
index the stored score is strictly worse. -/
theorem tuning_round_tiebreak (ev : Int → ℚ → ℚ) (tr vl : Table) (ranks : List Int)
    (regs : List ℚ) (m : String) (best : BestParam) (tbl : TuningTable)
    (h : tuning_als ev (some tr) (some vl) (some ranks) (some regs) (some m)
          = .ok best tbl) :
    tbl.scores = (paramCombination ranks regs).map (fun p => round4 (ev p.1 p.2))
    ∧ ∃ i, i < tbl.scores.length
      ∧ best.rank = tbl.ranks.getD i 0
      ∧ best.regParam = tbl.regParams.getD i 0
      ∧ best.score = tbl.scores.getD i 0
      ∧ (m ∈ regressionMetrics →
          (∀ j, j < tbl.scores.length → best.score ≤ tbl.scores.getD j 0)
          ∧ (∀ j, j < i → best.score < tbl.scores.getD j 0))
      ∧ (m ∈ rankingMetrics →
          (∀ j, j < tbl.scores.length → tbl.scores.getD j 0 ≤ best.score)
          ∧ (∀ j, j < i → tbl.scores.getD j 0 < best.score)) := by
  obtain ⟨hm, hne, htbl, hbest⟩ := tuning_als_ok_iff.mp h
  have hscores : tbl.scores = (paramCombination ranks regs).map
      (fun p => round4 (ev p.1 p.2)) := by rw [htbl]
  have hsne : tbl.scores ≠ [] := by
    rw [htbl]
    simpa using hne
  refine ⟨hscores, bestIdx m tbl.scores, ?_, ?_, ?_, ?_, ?_, ?_⟩
  · rcases hm with hreg | hrank
    · have hbi : bestIdx m tbl.scores = argminQ tbl.scores := by simp [bestIdx, hreg]
      rw [hbi]
      exact (argminQ_spec tbl.scores hsne).1
    · have hbi : bestIdx m tbl.scores = argmaxQ tbl.scores := by
        simp [bestIdx, metrics_disjoint hrank]
      rw [hbi]
      exact (argmaxQ_spec tbl.scores hsne).1
  · rw [hbest]
  · rw [hbest]
  · rw [hbest]
  · intro hreg
    have hbi : bestIdx m tbl.scores = argminQ tbl.scores := by simp [bestIdx, hreg]
    obtain ⟨hlt, hminle, hfirst⟩ := argminQ_spec tbl.scores hsne
    have hscore : best.score = tbl.scores.getD (bestIdx m tbl.scores) 0 := by rw [hbest]
    rw [hscore, hbi]
    exact ⟨fun j hj => hminle _ (getD_mem_of_lt hj), fun j hj => hfirst j hj⟩
  · intro hrank
    have hbi : bestIdx m tbl.scores = argmaxQ tbl.scores := by
      simp [bestIdx, metrics_disjoint hrank]
    obtain ⟨hlt, hmaxle, hfirst⟩ := argmaxQ_spec tbl.scores hsne
    have hscore : best.score = tbl.scores.getD (bestIdx m tbl.scores) 0 := by rw [hbest]
    rw [hscore, hbi]
    exact ⟨fun j hj => hmaxle _ (getD_mem_of_lt hj), fun j hj => hfirst j hj⟩

/-- Witness for C9: on a tie (`rmse` scores `[1, 1]`), the first grid point
in rank-major order is returned. -/
theorem tuning_round_tiebreak_witness :
    ([1, 1] : List ℚ) = (paramCombination [1, 2] [1]).map
        (fun p => round4 ((fun _ _ => (1 : ℚ)) p.1 p.2))
    ∧ ∃ i, i < ([1, 1] : List ℚ).length
      ∧ (1 : Int) = ([1, 2] : List Int).getD i 0
      ∧ (1 : ℚ) = ([1, 1] : List ℚ).getD i 0
      ∧ (1 : ℚ) = ([1, 1] : List ℚ).getD i 0
      ∧ ("rmse" ∈ regressionMetrics →
          (∀ j, j < ([1, 1] : List ℚ).length → (1 : ℚ) ≤ ([1, 1] : List ℚ).getD j 0)
          ∧ (∀ j, j < i → (1 : ℚ) < ([1, 1] : List ℚ).getD j 0))
      ∧ ("rmse" ∈ rankingMetrics →
          (∀ j, j < ([1, 1] : List ℚ).length → ([1, 1] : List ℚ).getD j 0 ≤ (1 : ℚ))
          ∧ (∀ j, j < i → ([1, 1] : List ℚ).getD j 0 < (1 : ℚ))) :=
  tuning_round_tiebreak (fun _ _ => 1) [] [] [1, 2] [1] "rmse"
    ⟨1, 1, 1⟩ ⟨[1, 2], [1, 1], [1, 1]⟩ (by decide)

/-! ### Claim theorems: error handling -/

/-- C6: `tuning_als` with any required argument absent (`None`), and both
metric evaluators with an absent dataset, report an error and return early
(`None` / `missingArgs`) without fitting any model or computing any
score. -/
theorem missing_args_guard (ev : Int → ℚ → ℚ) (tr vl : Option Table)
    (rl : Option (List Int)) (gl : Option (List ℚ)) (m : Option String)
    (rmEv : String → Nat → List (List Int × List Int) → ℚ)
    (regEv : String → PredTable → ℚ) (k k' : Nat) (mr ms : String)
    (h : rl = none ∨ gl = none ∨ tr = none ∨ vl = none ∨ m = none) :
    tuning_als ev tr vl rl gl m = .missingArgs
    ∧ top_k_rankingmetrics rmEv none k mr = none
    ∧ top_k_regressionmetrics regEv none k' ms = none := by
  refine ⟨?_, rfl, rfl⟩
  rcases h with rfl | rfl | rfl | rfl | rfl
  · cases gl <;> cases tr <;> cases vl <;> cases m <;> rfl
  · cases rl <;> cases tr <;> cases vl <;> cases m <;> rfl
  · cases rl <;> cases gl <;> cases vl <;> cases m <;> rfl
  · cases rl <;> cases gl <;> cases tr <;> cases m <;> rfl
  · cases rl <;> cases gl <;> cases tr <;> cases vl <;> rfl

/-- Witness for C6: an absent rank list makes `tuning_als` return early,
and both evaluators return `None` on an absent dataset. -/
theorem missing_args_guard_witness :
    tuning_als (fun _ _ => 0) (some []) (some []) none (some []) (some "rmse") = .missingArgs
    ∧ top_k_rankingmetrics (fun _ _ _ => 0) none 10 "ndcgAt" = none
    ∧ top_k_regressionmetrics (fun _ _ => 0) none 10 "rmse" = none :=
  missing_args_guard (fun _ _ => 0) (some []) (some []) none (some []) (some "rmse")
    (fun _ _ _ => 0) (fun _ _ => 0) 10 10 "ndcgAt" "rmse" (Or.inl rfl)

/-- C10: a present but unrecognized metric name passes the
missing-argument guards of `tuning_als`: the first grid point's model is
fitted and the call then crashes with an undefined-variable `NameError`
when recording the score (`crash 1`, not `missingArgs`); likewise
`top_k_rankingmetrics` falls through every branch and returns `None` for
an unrecognized ranking metric name. -/
theorem unrecognized_metric_behavior (ev : Int → ℚ → ℚ) (tr vl : Table)
    (ranks : List Int) (regs : List ℚ) (m : String)
    (rmEv : String → Nat → List (List Int × List Int) → ℚ) (ds : PredTable) (k : Nat)
    (h1 : m ∉ regressionMetrics) (h2 : m ∉ rankingMetrics)
    (h3 : ranks ≠ []) (h4 : regs ≠ []) :
    tuning_als ev (some tr) (some vl) (some ranks) (some regs) (some m) = .crash 1
    ∧ top_k_rankingmetrics rmEv (some ds) k m = none := by
  constructor
  · obtain ⟨a, t, hat⟩ := List.exists_cons_of_ne_nil (paramCombination_ne_nil h3 h4)
    have hnor : ¬(m ∈ regressionMetrics ∨ m ∈ rankingMetrics) := fun hor => hor.elim h1 h2
    simp only [tuning_als, if_neg hnor, hat]
  · have hp : m ≠ "precisionAt" := fun hc => h2 (by rw [hc]; decide)
    have hmap : m ≠ "meanAveragePrecision" := fun hc => h2 (by rw [hc]; decide)
    have hn : m ≠ "ndcgAt" := fun hc => h2 (by rw [hc]; decide)
    simp [top_k_rankingmetrics, hp, hmap, hn]

/-- Witness for C10 at the unrecognized metric name `"accuracy"`. -/
theorem unrecognized_metric_behavior_witness :
    tuning_als (fun _ _ => 0) (some []) (some []) (some [1]) (some [1]) (some "accuracy")
      = .crash 1
    ∧ top_k_rankingmetrics (fun _ _ _ => 0) (some []) 10 "accuracy" = none :=
  unrecognized_metric_behavior (fun _ _ => 0) [] [] [1] [1] "accuracy"
    (fun _ _ _ => 0) [] 10 (by decide) (by decide) (by simp) (by simp)

/-! ### Claim theorem: seeded sampling is deterministic -/

/-- C5: every sampling operation is a deterministic function of its input
and its seed — repeating the downsampling user sample, the seeded Bernoulli
selection itself, or the full user-level split (60/20/20 user assignment
plus the per-user 0.5 stratified holdouts, all seeded with the hard-coded
123) on the same inputs yields identical results. -/
theorem sampling_deterministic (data : Table) (user_df : List Int)
    (percentage : ℚ) (seed : Nat) :
    user_df.filter (bernoulliDecide seed percentage)
        = user_df.filter (bernoulliDecide seed percentage)
    ∧ user_id_1_perc user_df percentage = user_id_1_perc user_df percentage
    ∧ downsampling data user_df percentage = downsampling data user_df percentage
    ∧ train_val_test_split_run data = train_val_test_split_run data :=
  ⟨rfl, rfl, rfl, rfl⟩

/-- Witness for C5 at a concrete table. -/
theorem sampling_deterministic_witness :
    downsampling [⟨7, 1, 1, 5, 0⟩] [7] 1 = downsampling [⟨7, 1, 1, 5, 0⟩] [7] 1 :=
  (sampling_deterministic [⟨7, 1, 1, 5, 0⟩] [7] 1 123).2.2.1

/-! ### Claim theorem: the shared top-k evaluation window -/

lemma mem_topKWindow {score : PredRow → ℚ} {k : Nat} {ds : PredTable} {r : PredRow} :
    r ∈ topKWindow score k ds ↔
      r ∈ ds ∧ (userPartition ds r.user_id).countP (fun s => decide (score r < score s)) < k := by
  simp only [topKWindow, sqlRank, List.mem_filter, decide_eq_true_eq,
    List.countP_eq_length_filter]
  constructor
  · rintro ⟨h1, h2⟩
    exact ⟨h1, by omega⟩
  · rintro ⟨h1, h2⟩
    exact ⟨h1, by omega⟩

/-- C7: both metric evaluators use the same per-user top-k window — a row
survives iff fewer than `k` rows of the same user's partition have a
strictly greater score (i.e. its descending-order rank is at most `k`):
the regression evaluator scores exactly the windowed predicted rows, the
ranking evaluator scores the per-user join of the predicted top-k item
list (window on the prediction column) with the actual top-k item list
(window on the rating column). -/
theorem evaluators_share_topk_window (regEv : String → PredTable → ℚ)
    (rmEv : String → Nat → List (List Int × List Int) → ℚ)
    (ds : PredTable) (k : Nat) (score : PredRow → ℚ) (r : PredRow)
    (pr : List Int × List Int) :
    (r ∈ topKWindow score k ds ↔
      r ∈ ds ∧ (userPartition ds r.user_id).countP (fun s => decide (score r < score s)) < k)
    ∧ top_k_regressionmetrics regEv (some ds) k "rmse"
        = some (regEv "rmse" (topKWindow PredRow.prediction k ds))
    ∧ top_k_rankingmetrics rmEv (some ds) k "ndcgAt"
        = some (rmEv "ndcgAt" k (rankingPairs ds k))
    ∧ (pr ∈ rankingPairs ds k ↔ ∃ u : Int,
        (∃ a ∈ topKWindow PredRow.prediction k ds, a.user_id = u)
        ∧ (∃ b ∈ topKWindow ratingScore k ds, b.user_id = u)
        ∧ pr = (collectItems (topKWindow PredRow.prediction k ds) u,
                collectItems (topKWindow ratingScore k ds) u)) := by
  refine ⟨mem_topKWindow, rfl, by simp [top_k_rankingmetrics], ?_⟩
  simp only [rankingPairs, List.mem_map, List.mem_filter, List.mem_dedup, decide_eq_true_eq]
  constructor
  · rintro ⟨u, ⟨h1, h2⟩, hpr⟩
    exact ⟨u, h1, h2, hpr.symm⟩
  · rintro ⟨u, h1, h2, hpr⟩
    exact ⟨u, ⟨h1, h2⟩, hpr.symm⟩

/-- Witness for C7 at a concrete prediction table: with one row per user
and `k = 1`, both windows keep the row and the join produces one pair. -/
theorem evaluators_share_topk_window_witness :
    (⟨3, 8, 5, 4⟩ : PredRow) ∈ topKWindow PredRow.prediction 1 [⟨3, 8, 5, 4⟩]
      ↔ (⟨3, 8, 5, 4⟩ : PredRow) ∈ ([⟨3, 8, 5, 4⟩] : PredTable)
        ∧ (userPartition [⟨3, 8, 5, 4⟩] (3 : Int)).countP
            (fun s => decide ((4 : ℚ) < s.prediction)) < 1 :=
  (evaluators_share_topk_window (fun _ _ => 0) (fun _ _ _ => 0) [⟨3, 8, 5, 4⟩] 1
    PredRow.prediction ⟨3, 8, 5, 4⟩ ([], [])).1

end Goodreads
